import Mathlib

/-!
# Verification of the ADF task queue manager (`app/utils/task_manager.py`)

This file gives a shallow embedding of the task-queue core of the repository
and proves/refutes the specification claims about it.

Modelling decisions (each one is tied to a place in the source):

* `Task` mirrors the Python class `Task` (fields `id`, `data`, `status`,
  `result`, `error`).  The wall-clock fields `created_at` / `updated_at`
  (`datetime.now()`) are not modelled; no claim refers to them.
  `uuid.uuid4()` is modelled by drawing from a fresh counter (`nextId`):
  the code relies exactly on the freshness of the drawn identifier.
* Statuses are the four strings `"pending" | "processing" | "completed" |
  "failed"` used by the code, modelled as the inductive `Status`.
* `TaskQueueManager` becomes the state record `TaskQueueManager`:
  `tasks` is the registry dict (association list in insertion order),
  `queue` is the `asyncio.Queue` content (front = oldest, holding task ids —
  the Python queue holds references to the very objects registered in
  `tasks`, so the registry is the heap and the queue stores keys),
  `unfinished` is the queue's internal `_unfinished_tasks` counter that
  `put_nowait` increments, `task_done()` decrements and `join()` waits on,
  `workers` is `self.workers` (one entry per created worker coroutine,
  carrying the point of its control flow), `stopEvent` is `self._stop_event`
  and `started` is `self._started`.
* The concurrency of the asyncio event loop is modelled as a small-step
  transition system: `step` executes one atomic block (code between two
  `await` suspension points) of one coroutine; `steps` runs a chosen
  interleaving.  `Action` names the atomic blocks of `_worker`,
  `_process_task`, `add_task`, `start` and `stop`.
* The body of the processing placeholder (lines 138-141:
  `await asyncio.sleep(1); result = {"processed": task.data, "worker":
  worker_name}`) is the externally supplied work function of the spec; the
  machine is parameterised by `work : String → Payload → Except String
  ProcessOutput` (exception `e` is observed as the string `str(e)`), and
  `defaultWork` is the literal placeholder body, which always succeeds.
* `processingOrder` / `submissionOrder` are ghost history variables (pure
  observation logs, written only next to the corresponding queue
  operations) used to state the temporal FIFO claim.
-/

deriving instance DecidableEq for Except

namespace ADF

/-- Task payloads are opaque to the manager (`data: Dict[str, Any]`). -/
abbrev Payload := Nat

/-- The status strings used by the code. -/
inductive Status where
  | pending
  | processing
  | completed
  | failed
deriving DecidableEq, Repr

/-- The result dict built at line 141:
`result = {"processed": task.data, "worker": worker_name}`. -/
structure ProcessOutput where
  processed : Payload
  worker : String
deriving DecidableEq, Repr

/-- The Python class `Task` (lines 17-33).  `created_at`/`updated_at` are
wall-clock datetimes and are not modelled. -/
structure Task where
  id : Nat
  data : Payload
  status : Status
  result : Option ProcessOutput
  error : Option String
deriving DecidableEq, Repr

/-- `Task.update_status` (lines 35-47): unconditionally overwrites
`status`, `result` and `error` (with the call's defaults `None`). -/
def Task.update_status (t : Task) (status : Status)
    (result : Option ProcessOutput) (error : Option String) : Task :=
  { t with status := status, result := result, error := error }

/-- `Task.__init__` (lines 27-31) with the freshly drawn id. -/
def newTask (id : Nat) (data : Payload) : Task :=
  { id := id, data := data, status := .pending, result := none, error := none }

/-- Control-flow point of one worker coroutine inside `_worker`
(lines 92-118). -/
inductive WorkerPhase where
  /-- about to evaluate `while not self._stop_event.is_set()` (line 96) -/
  | loopTop
  /-- suspended in `await asyncio.wait_for(self.queue.get(), timeout=1.0)`
  (line 100) -/
  | awaitingGet
  /-- inside `_process_task` for the given task id, suspended at the
  processing body (line 140) -/
  | running (taskId : Nat)
  /-- the coroutine has returned (loop exit or `CancelledError`) -/
  | stopped
deriving DecidableEq, Repr

/-- Control-flow point of the (single) `stop()` coroutine (lines 236-253). -/
inductive StopPhase where
  | notRequested
  /-- `self._stop_event.set()` has run; suspended in
  `await self.queue.join()` (line 244) -/
  | joining
  /-- `join()` returned, the workers were cancelled and gathered;
  `stop()` has returned -/
  | returned
deriving DecidableEq, Repr

/-- The state of a `TaskQueueManager` instance (lines 49-73) together with
the control points of its coroutines and two ghost history logs. -/
structure TaskQueueManager where
  max_workers : Int
  queue_size : Int
  tasks : List (Nat × Task)
  queue : List Nat
  nextId : Nat
  started : Bool
  stopEvent : Bool
  unfinished : Nat
  workers : List WorkerPhase
  stopPhase : StopPhase
  /-- ghost: task ids in the order their processing began -/
  processingOrder : List Nat
  /-- ghost: task ids in the order they were enqueued -/
  submissionOrder : List Nat
deriving DecidableEq, Repr

/-- Python truthiness fallback `arg or fallback` on an optional int
(lines 61-62): `None` and `0` are falsy, every other int is truthy. -/
def pyOr (arg : Option Int) (fallback : Int) : Int :=
  match arg with
  | none => fallback
  | some v => if v = 0 then fallback else v

/-- `TaskQueueManager.__init__` (lines 52-73).  `envWorkers` / `envQueue`
are the parsed values of the environment variables `ENGINE_WORKERS` and
`TASK_QUEUE_SIZE` when they are set; `int(os.getenv(name, default))` is
their value with the documented defaults 2 and 1000. -/
def initManager (max_workers queue_size : Option Int)
    (envWorkers envQueue : Option Int) : TaskQueueManager :=
  { max_workers := pyOr max_workers (envWorkers.getD 2)
    queue_size := pyOr queue_size (envQueue.getD 1000)
    tasks := []
    queue := []
    nextId := 0
    started := false
    stopEvent := false
    unfinished := 0
    workers := []
    stopPhase := .notRequested
    processingOrder := []
    submissionOrder := [] }

/-- Registry lookup `self.tasks.get(id)` (dict lookup; the association
list keeps each key once on reachable states). -/
def getTask (ts : List (Nat × Task)) (id : Nat) : Option Task :=
  (ts.find? (fun p => p.1 = id)).map (fun p => p.2)

/-- Registry update: the record stored under `id` is replaced (the Python
code mutates the shared `Task` object in place; here the heap is the
registry, so mutation is rewriting the entry). -/
def setTask (ts : List (Nat × Task)) (id : Nat) (t : Task) :
    List (Nat × Task) :=
  ts.map (fun p => if p.1 = id then (id, t) else p)

/-- `asyncio.Queue.full()`: true iff the queue was created with a positive
`maxsize` and currently holds at least that many items (a non-positive
`maxsize` means an unbounded queue whose `full()` is always `False`). -/
def queueFull (s : TaskQueueManager) : Bool :=
  0 < s.queue_size && s.queue_size ≤ (s.queue.length : Int)

/-- `TaskQueueManager.add_task` (lines 160-195).  A synchronous method:
it runs without any suspension point.  The second `queueFull` test is the
`except asyncio.QueueFull` handler around `put_nowait` (lines 188-193);
it re-raises after the task has already been registered, but it can never
fire because the queue did not change since the first test. -/
def add_task (s : TaskQueueManager) (data : Payload) :
    TaskQueueManager × Except String Nat :=
  if queueFull s then
    (s, .error "任务队列已满，请稍后重试")
  else
    let t := newTask s.nextId data
    let s1 := { s with tasks := s.tasks ++ [(t.id, t)], nextId := s.nextId + 1 }
    if queueFull s1 then
      (s1, .error "任务队列已满")
    else
      ({ s1 with
          queue := s1.queue ++ [t.id]
          unfinished := s1.unfinished + 1
          submissionOrder := s1.submissionOrder ++ [t.id] }, .ok t.id)

/-- The snapshot dict returned by `get_task_status` (lines 197-218),
restricted to the modelled fields. -/
structure TaskStatusView where
  id : Nat
  status : Status
  result : Option ProcessOutput
  error : Option String
deriving DecidableEq, Repr

/-- `TaskQueueManager.get_task_status` (lines 197-218): `None` for an
unknown id, otherwise a point-in-time copy of the record's fields. -/
def get_task_status (s : TaskQueueManager) (id : Nat) :
    Option TaskStatusView :=
  (getTask s.tasks id).map (fun t => ⟨t.id, t.status, t.result, t.error⟩)

/-- The dict returned by `get_queue_stats` (lines 220-234). -/
structure QueueStats where
  queue_size : Nat
  max_queue_size : Int
  active_workers : Nat
  max_workers : Int
  total_tasks : Nat
  is_started : Bool
deriving DecidableEq, Repr

/-- `TaskQueueManager.get_queue_stats` (lines 220-234). -/
def get_queue_stats (s : TaskQueueManager) : QueueStats :=
  { queue_size := s.queue.length
    max_queue_size := s.queue_size
    active_workers := s.workers.length
    max_workers := s.max_workers
    total_tasks := s.tasks.length
    is_started := s.started }

/-- `f"worker-{i+1}"` (line 88). -/
def workerName (i : Nat) : String := "worker-" ++ toString (i + 1)

/-- The placeholder processing body, lines 138-141: always succeeds and
returns `{"processed": task.data, "worker": worker_name}`. -/
def defaultWork (name : String) (d : Payload) : Except String ProcessOutput :=
  .ok ⟨d, name⟩

/-- One atomic block (code between suspension points) of one coroutine of
the manager. -/
inductive Action where
  /-- `start()` (lines 75-83): spawns the workers unless already started -/
  | start
  /-- the synchronous `add_task(data)` call (lines 160-195) -/
  | addTask (data : Payload)
  /-- worker `w` evaluates the loop condition at line 96 -/
  | workerCheck (w : Nat)
  /-- the `wait_for` of worker `w` times out (line 101): back to the
  loop condition -/
  | workerTimeout (w : Nat)
  /-- `queue.get()` of worker `w` returns the front item; `_process_task`
  runs up to and including `task.update_status("processing")` (line 130)
  and suspends at the processing body -/
  | workerGet (w : Nat)
  /-- the processing body of worker `w` finishes: the terminal
  `update_status` (line 144 or 154), then `queue.task_done()` (line 110),
  back to the loop condition -/
  | workerFinish (w : Nat)
  /-- `stop()` is called (lines 236-244): `self._stop_event.set()`, then
  suspend in `await self.queue.join()` -/
  | stopBegin
  /-- `queue.join()` returns (only when `unfinished = 0`); the workers are
  cancelled and gathered (lines 246-251) and `stop()` returns -/
  | stopFinish
deriving DecidableEq, Repr

/-- The small-step semantics of the manager: `none` means the action is
not enabled in this state (that coroutine is not at that control point).
`work` is the processing body (the work function supplied to the worker,
observed through the `try/except Exception` of `_process_task`). -/
def step (work : String → Payload → Except String ProcessOutput)
    (s : TaskQueueManager) : Action → Option TaskQueueManager
  | .start =>
    some (if s.started then s
      else { s with
              workers := s.workers ++ List.replicate s.max_workers.toNat .loopTop
              started := true })
  | .addTask d => some (add_task s d).1
  | .workerCheck w =>
    match s.workers[w]? with
    | some .loopTop =>
      some { s with
              workers := s.workers.set w
                (if s.stopEvent then .stopped else .awaitingGet) }
    | _ => none
  | .workerTimeout w =>
    match s.workers[w]? with
    | some .awaitingGet => some { s with workers := s.workers.set w .loopTop }
    | _ => none
  | .workerGet w =>
    match s.workers[w]?, s.queue with
    | some .awaitingGet, id :: rest =>
      match getTask s.tasks id with
      | some t =>
        some { s with
                queue := rest
                tasks := setTask s.tasks id (t.update_status .processing none none)
                workers := s.workers.set w (.running id)
                processingOrder := s.processingOrder ++ [id] }
      | none => none
    | _, _ => none
  | .workerFinish w =>
    match s.workers[w]? with
    | some (.running id) =>
      match getTask s.tasks id with
      | some t =>
        let t' := match work (workerName w) t.data with
          | .ok r => t.update_status .completed (some r) none
          | .error e => t.update_status .failed none (some e)
        some { s with
                tasks := setTask s.tasks id t'
                unfinished := s.unfinished - 1
                workers := s.workers.set w .loopTop }
      | none => none
    | _ => none
  | .stopBegin =>
    match s.stopPhase with
    | .notRequested => some { s with stopEvent := true, stopPhase := .joining }
    | _ => none
  | .stopFinish =>
    match s.stopPhase, s.unfinished with
    | .joining, 0 =>
      some { s with
              workers := s.workers.map (fun _ => .stopped)
              stopPhase := .returned }
    | _, _ => none

/-- Run a chosen interleaving of atomic blocks. -/
def steps (work : String → Payload → Except String ProcessOutput)
    (s : TaskQueueManager) : List Action → Option TaskQueueManager
  | [] => some s
  | a :: as =>
    match step work s a with
    | some s' => steps work s' as
    | none => none

/-- A state is reachable when some interleaving of atomic blocks leads to
it from a freshly constructed manager. -/
def Reachable (work : String → Payload → Except String ProcessOutput)
    (s : TaskQueueManager) : Prop :=
  ∃ mw qs ew eq acts, steps work (initManager mw qs ew eq) acts = some s

/-- A sequence of `add_task` calls with no other activity in between. -/
def submitAll (s : TaskQueueManager) :
    List Payload → TaskQueueManager × List (Except String Nat)
  | [] => (s, [])
  | d :: ds =>
    let p := add_task s d
    let q := submitAll p.1 ds
    (q.1, p.2 :: q.2)
/-- The response model `TaskResponse` (`app/models/requests.py`, lines
13-16), with the task id as the opaque identifier. -/
structure TaskResponse where
  task_id : Nat
  message : String
deriving DecidableEq, Repr

/-- The `process_async` tool (`app/main.py`, lines 123-225), restricted to
its effect on the manager and its result to the caller.  `pre` is
`preprocessing_system.preprocess` (may raise, e.g. `ValueError`);
`publish` is the outcome of `await mq_client.send_message(...)` (the
configured client either returns or raises — every concrete client
re-raises its failures).  The whole body sits in one `try` whose handler
re-raises `Exception("提交任务时发生错误: ...")` to the caller. -/
def process_async_tool (s : TaskQueueManager) (data : Payload)
    (callback_url : Option String)
    (pre : Payload → Except String Payload)
    (publish : Except String Unit) :
    TaskQueueManager × Except String TaskResponse :=
  match pre data with
  | .error e => (s, .error ("提交任务时发生错误: " ++ e))
  | .ok processed =>
    match add_task s processed with
    | (s', .error e) => (s', .error ("提交任务时发生错误: " ++ e))
    | (s', .ok task_id) =>
      match callback_url with
      | some _ =>
        match publish with
        | .error e => (s', .error ("提交任务时发生错误: " ++ e))
        | .ok _ => (s', .ok ⟨task_id, "任务已成功提交"⟩)
      | none => (s', .ok ⟨task_id, "任务已成功提交"⟩)

/-! ## Registry lemmas -/

theorem getTask_cons {p : Nat × Task} {ts : List (Nat × Task)} {id : Nat} :
    getTask (p :: ts) id = if p.1 = id then some p.2 else getTask ts id := by
  by_cases h : p.1 = id <;> simp [getTask, List.find?_cons, h]

theorem getTask_append_left {ts us : List (Nat × Task)} {id : Nat} {t : Task}
    (h : getTask ts id = some t) : getTask (ts ++ us) id = some t := by
  induction ts with
  | nil => simp [getTask] at h
  | cons p ts ih =>
    rw [getTask_cons] at h
    rw [List.cons_append, getTask_cons]
    by_cases hp : p.1 = id
    · simpa [hp] using h
    · rw [if_neg hp] at h ⊢
      exact ih h

theorem getTask_none_iff {ts : List (Nat × Task)} {id : Nat} :
    getTask ts id = none ↔ ∀ p ∈ ts, p.1 ≠ id := by
  induction ts with
  | nil => simp [getTask]
  | cons p ts ih =>
    rw [getTask_cons]
    by_cases hp : p.1 = id <;> simp [hp, ih]

theorem getTask_append_none {ts us : List (Nat × Task)} {id : Nat}
    (h : getTask ts id = none) : getTask (ts ++ us) id = getTask us id := by
  induction ts with
  | nil => simp
  | cons p ts ih =>
    rw [getTask_cons] at h
    rw [List.cons_append, getTask_cons]
    by_cases hp : p.1 = id
    · simp [hp] at h
    · rw [if_neg hp] at h ⊢
      exact ih h

theorem getTask_mem {ts : List (Nat × Task)} {id : Nat} {t : Task}
    (h : getTask ts id = some t) : (id, t) ∈ ts := by
  induction ts with
  | nil => simp [getTask] at h
  | cons p ts ih =>
    rw [getTask_cons] at h
    by_cases hp : p.1 = id
    · rw [if_pos hp] at h
      injection h with h2
      have hpe : (id, t) = p := Prod.ext hp.symm h2.symm
      rw [hpe]
      exact List.mem_cons_self _ _
    · rw [if_neg hp] at h
      exact List.mem_cons_of_mem _ (ih h)

theorem setTask_keys (ts : List (Nat × Task)) (id : Nat) (t : Task) :
    (setTask ts id t).map Prod.fst = ts.map Prod.fst := by
  induction ts with
  | nil => rfl
  | cons p ts ih =>
    by_cases hp : p.1 = id <;> simp [setTask, hp] at ih ⊢ <;>
      simpa [hp] using ih

theorem setTask_mem {ts : List (Nat × Task)} {id : Nat} {t : Task}
    {q : Nat × Task} (h : q ∈ setTask ts id t) : q ∈ ts ∨ q = (id, t) := by
  induction ts with
  | nil => simp [setTask] at h
  | cons p ts ih =>
    simp only [setTask, List.map_cons, List.mem_cons] at h
    rcases h with h | h
    · by_cases hp : p.1 = id
      · rw [if_pos hp] at h
        right
        exact h
      · rw [if_neg hp] at h
        left
        simp [h]
    · rcases ih h with h' | h'
      · left
        exact List.mem_cons_of_mem _ h'
      · right
        exact h'

theorem getTask_setTask_self {ts : List (Nat × Task)} {id : Nat} {t0 : Task}
    (t : Task) (h : getTask ts id = some t0) :
    getTask (setTask ts id t) id = some t := by
  induction ts with
  | nil => simp [getTask] at h
  | cons p ts ih =>
    rw [getTask_cons] at h
    by_cases hp : p.1 = id
    · simp [setTask, hp, getTask_cons]
    · rw [if_neg hp] at h
      simpa [setTask, hp, getTask_cons] using ih h

theorem getTask_setTask_ne {ts : List (Nat × Task)} {id : Nat} {t : Task}
    {id' : Nat} (h : id' ≠ id) :
    getTask (setTask ts id t) id' = getTask ts id' := by
  induction ts with
  | nil => rfl
  | cons p ts ih =>
    by_cases hp : p.1 = id
    · have : id ≠ id' := fun hc => h hc.symm
      simp [setTask, hp, getTask_cons, this] at ih ⊢
      simpa [hp] using ih
    · simp [setTask, hp, getTask_cons] at ih ⊢
      by_cases hq : p.1 = id' <;> simp [hq, ih]

theorem setTask_eq_of_none {ts : List (Nat × Task)} {id : Nat} {t : Task}
    (h : getTask ts id = none) : setTask ts id t = ts := by
  rw [getTask_none_iff] at h
  induction ts with
  | nil => rfl
  | cons p ts ih =>
    have hp : p.1 ≠ id := h p (List.mem_cons_self _ _)
    simp only [setTask, List.map_cons, if_neg hp]
    rw [show ts.map (fun p => if p.1 = id then (id, t) else p) = setTask ts id t from rfl,
      ih (fun q hq => h q (List.mem_cons_of_mem _ hq))]

theorem getTask_setTask_none {ts : List (Nat × Task)} {id' : Nat}
    (id : Nat) (t : Task) (h : getTask ts id' = none) :
    getTask (setTask ts id t) id' = none := by
  by_cases hc : id' = id
  · subst hc
    rw [setTask_eq_of_none h]
    exact h
  · rw [getTask_setTask_ne hc]
    exact h

/-! ## Case analysis of `add_task` and inversion of `step` -/

/-- The state a successful `add_task` produces. -/
def addTaskOkState (s : TaskQueueManager) (data : Payload) : TaskQueueManager :=
  { s with
      tasks := s.tasks ++ [(s.nextId, newTask s.nextId data)]
      nextId := s.nextId + 1
      queue := s.queue ++ [s.nextId]
      unfinished := s.unfinished + 1
      submissionOrder := s.submissionOrder ++ [s.nextId] }

/-- `add_task` either rejects a full queue and leaves the state untouched,
or registers, enqueues and returns the fresh id (the inner `QueueFull`
re-raise of lines 188-193 is dead: the queue cannot fill between the two
tests of the synchronous method). -/
theorem add_task_spec (s : TaskQueueManager) (data : Payload) :
    (queueFull s = true ∧ add_task s data = (s, .error "任务队列已满，请稍后重试")) ∨
    (queueFull s = false ∧
      add_task s data = (addTaskOkState s data, .ok s.nextId)) := by
  by_cases hf : queueFull s
  · left
    exact ⟨hf, by simp [add_task, hf]⟩
  · right
    refine ⟨by simpa using hf, ?_⟩
    have h1 : queueFull { s with
        tasks := s.tasks ++ [(s.nextId, newTask s.nextId data)]
        nextId := s.nextId + 1 } = false := by
      simp only [queueFull] at hf ⊢
      simpa using hf
    simp [add_task, hf, newTask, addTaskOkState]
    simpa [newTask] using h1

theorem step_start_inv {work} {s s' : TaskQueueManager}
    (h : step work s .start = some s') :
    s' = if s.started then s
      else { s with
              workers := s.workers ++ List.replicate s.max_workers.toNat .loopTop
              started := true } := by
  simpa [step] using h.symm

theorem step_addTask_inv {work} {s s' : TaskQueueManager} {d : Payload}
    (h : step work s (.addTask d) = some s') :
    s' = (add_task s d).1 := by
  simpa [step] using h.symm

theorem step_workerCheck_inv {work} {s s' : TaskQueueManager} {w : Nat}
    (h : step work s (.workerCheck w) = some s') :
    s.workers[w]? = some .loopTop ∧
    s' = { s with
            workers := s.workers.set w
              (if s.stopEvent then .stopped else .awaitingGet) } := by
  simp only [step] at h
  cases hw : s.workers[w]? with
  | none => rw [hw] at h; cases h
  | some ph =>
    cases ph <;> rw [hw] at h <;> try cases h
    exact ⟨rfl, rfl⟩

theorem step_workerTimeout_inv {work} {s s' : TaskQueueManager} {w : Nat}
    (h : step work s (.workerTimeout w) = some s') :
    s.workers[w]? = some .awaitingGet ∧
    s' = { s with workers := s.workers.set w .loopTop } := by
  simp only [step] at h
  cases hw : s.workers[w]? with
  | none => rw [hw] at h; cases h
  | some ph =>
    cases ph <;> rw [hw] at h <;> try cases h
    exact ⟨rfl, rfl⟩

theorem step_workerGet_inv {work} {s s' : TaskQueueManager} {w : Nat}
    (h : step work s (.workerGet w) = some s') :
    ∃ id rest t, s.workers[w]? = some .awaitingGet ∧ s.queue = id :: rest ∧
      getTask s.tasks id = some t ∧
      s' = { s with
              queue := rest
              tasks := setTask s.tasks id (t.update_status .processing none none)
              workers := s.workers.set w (.running id)
              processingOrder := s.processingOrder ++ [id] } := by
  simp only [step] at h
  split at h
  · rename_i id rest hw hq
    split at h
    · rename_i t ht
      injection h with h
      exact ⟨id, rest, t, hw, hq, ht, h.symm⟩
    · cases h
  · cases h

theorem step_workerFinish_inv {work} {s s' : TaskQueueManager} {w : Nat}
    (h : step work s (.workerFinish w) = some s') :
    ∃ id t, s.workers[w]? = some (.running id) ∧
      getTask s.tasks id = some t ∧
      s' = { s with
              tasks := setTask s.tasks id
                (match work (workerName w) t.data with
                  | .ok r => t.update_status .completed (some r) none
                  | .error e => t.update_status .failed none (some e))
              unfinished := s.unfinished - 1
              workers := s.workers.set w .loopTop } := by
  simp only [step] at h
  split at h
  · rename_i id hw
    split at h
    · rename_i t ht
      injection h with h
      exact ⟨id, t, hw, ht, h.symm⟩
    · cases h
  · cases h

theorem step_stopBegin_inv {work} {s s' : TaskQueueManager}
    (h : step work s .stopBegin = some s') :
    s.stopPhase = .notRequested ∧
    s' = { s with stopEvent := true, stopPhase := .joining } := by
  simp only [step] at h
  cases hp : s.stopPhase <;> rw [hp] at h <;> try cases h
  exact ⟨rfl, rfl⟩

theorem step_stopFinish_inv {work} {s s' : TaskQueueManager}
    (h : step work s .stopFinish = some s') :
    s.stopPhase = .joining ∧ s.unfinished = 0 ∧
    s' = { s with
            workers := s.workers.map (fun _ => .stopped)
            stopPhase := .returned } := by
  simp only [step] at h
  cases hp : s.stopPhase <;> rw [hp] at h <;> try cases h
  case joining =>
    cases hu : s.unfinished with
    | zero => rw [hu] at h; injection h with h; exact ⟨rfl, rfl, h.symm⟩
    | succ n => rw [hu] at h; cases h

/-! ## Concrete states used by counterexamples and witnesses -/

/-- A fallback default state (only used to make `Option.getD` total). -/
def dflt : TaskQueueManager := initManager none none none none

/-- A started manager with one worker and capacity 5 on which `stop()` has
run to completion (no tasks were ever submitted, so the join succeeds
immediately). -/
def stoppedState : TaskQueueManager :=
  (steps defaultWork (initManager (some 1) (some 5) none none)
    [Action.start, Action.stopBegin, Action.stopFinish]).getD dflt

/-- A capacity-1 manager whose single queue slot is taken. -/
def fullState : TaskQueueManager :=
  (steps defaultWork (initManager (some 1) (some 1) none none)
    [Action.addTask 5]).getD dflt

/-- A started manager with one worker and capacity 5. -/
def startedState : TaskQueueManager :=
  (steps defaultWork (initManager (some 1) (some 5) none none)
    [Action.start]).getD dflt

/-! ## C9 — rejection atomicity of `add_task` -/

/-- **C9** (confirmed).  Whenever `add_task` raises, the manager state is
completely unchanged — no record is left in the registry and the queue is
untouched — and moreover it only raises because the queue is full.  This
holds for every state (hence in particular every reachable one): the
rejection happens before the record is created, and the second, late
raise inside the `put_nowait` handler (which *would* leave the record
registered, lines 178-193) is dead code because the queue cannot grow
between the fullness test and `put_nowait` in the synchronous method. -/
theorem add_task_reject_atomic (s : TaskQueueManager) (data : Payload)
    (h : ∃ e, (add_task s data).2 = Except.error e) :
    (add_task s data).1 = s ∧ queueFull s = true := by
  rcases add_task_spec s data with ⟨hf, he⟩ | ⟨hf, he⟩
  · rw [he]
    exact ⟨rfl, hf⟩
  · rcases h with ⟨e, h⟩
    rw [he] at h
    cases h

/-- Witness for C9 at a concrete full manager. -/
theorem add_task_reject_atomic_witness :
    (∃ e, (add_task fullState 7).2 = Except.error e) ∧
    ((add_task fullState 7).1 = fullState ∧ queueFull fullState = true) :=
  ⟨⟨"任务队列已满，请稍后重试", by decide⟩,
    add_task_reject_atomic fullState 7 ⟨"任务队列已满，请稍后重试", by decide⟩⟩

/-! ## C10 — falsy construction arguments -/

/-- **C10 counterexample**.  With the environment variables set to `0`
(`ENGINE_WORKERS=0`, `TASK_QUEUE_SIZE=0`), constructing the manager with
`max_workers=0` and `queue_size=0` *does* produce a zero-worker,
non-positive-capacity manager: the falsy argument falls back to the
env-derived value, which is itself 0, so `start()` launches no worker at
all.  The claim's "configured worker count and capacity are always
positive" is false. -/
theorem initManager_zero_env_zero_workers :
    (initManager (some 0) (some 0) (some 0) (some 0)).max_workers = 0 ∧
    (initManager (some 0) (some 0) (some 0) (some 0)).queue_size = 0 ∧
    ∃ s, step defaultWork (initManager (some 0) (some 0) (some 0) (some 0))
        .start = some s ∧ s.started = true ∧ s.workers = [] :=
  ⟨rfl, rfl,
    (step defaultWork (initManager (some 0) (some 0) (some 0) (some 0))
        .start).getD dflt,
    by decide, by decide, by decide⟩

/-- **C10 amended**.  A falsy (`None` or `0`) constructor argument is
silently replaced by the environment-derived value (`ENGINE_WORKERS`,
`TASK_QUEUE_SIZE`); a truthy (non-zero) argument is kept, even when
negative.  When the environment variables are *unset*, the defaults are 2
workers and capacity 1000, which are positive — but an environment value
of 0 or less still yields a non-positive configuration. -/
theorem initManager_falsy_fallback (mw qs envW envQ : Option Int) :
    ((mw = none ∨ mw = some 0) →
      (initManager mw qs envW envQ).max_workers = envW.getD 2) ∧
    ((qs = none ∨ qs = some 0) →
      (initManager mw qs envW envQ).queue_size = envQ.getD 1000) ∧
    (∀ v : Int, mw = some v → v ≠ 0 →
      (initManager mw qs envW envQ).max_workers = v) ∧
    (∀ v : Int, qs = some v → v ≠ 0 →
      (initManager mw qs envW envQ).queue_size = v) ∧
    (envW = none → envQ = none → (mw = none ∨ mw = some 0) →
      (qs = none ∨ qs = some 0) →
      0 < (initManager mw qs envW envQ).max_workers ∧
      0 < (initManager mw qs envW envQ).queue_size) := by
  refine ⟨?_, ?_, ?_, ?_, ?_⟩
  · rintro (rfl | rfl) <;> simp [initManager, pyOr]
  · rintro (rfl | rfl) <;> simp [initManager, pyOr]
  · rintro v rfl hv
    simp [initManager, pyOr, hv]
  · rintro v rfl hv
    simp [initManager, pyOr, hv]
  · rintro rfl rfl (rfl | rfl) (rfl | rfl) <;> constructor <;> decide

/-- Witness for C10 (amended) at `max_workers=0`, `queue_size=None`,
environment unset. -/
theorem initManager_falsy_fallback_witness :
    (initManager (some 0) none none none).max_workers = 2 ∧
    0 < (initManager (some 0) none none none).max_workers ∧
    0 < (initManager (some 0) none none none).queue_size :=
  ⟨((initManager_falsy_fallback (some 0) none none none).1 (Or.inr rfl)).trans
      rfl,
    ((initManager_falsy_fallback (some 0) none none none).2.2.2.2 rfl rfl
      (Or.inr rfl) (Or.inl rfl))⟩

/-! ## C2 — post-shutdown rejection -/

/-- **C2 counterexample**.  `add_task` performs no shutdown check at all:
after `stop()` has fully completed on a started manager (stop event set,
workers cancelled, `stop()` returned), a new submission is *accepted* —
it registers a Pending record and enqueues it (where no worker will ever
pick it up) instead of failing with a shutdown rejection. -/
theorem add_task_after_stop_accepted :
    steps defaultWork (initManager (some 1) (some 5) none none)
      [Action.start, Action.stopBegin, Action.stopFinish] = some stoppedState ∧
    stoppedState.stopPhase = StopPhase.returned ∧
    stoppedState.stopEvent = true ∧
    (add_task stoppedState 42).2 = Except.ok 0 ∧
    getTask (add_task stoppedState 42).1.tasks 0 = some (newTask 0 42) ∧
    (add_task stoppedState 42).1.queue = [0] := by
  decide

/-- **C2 amended**.  Submissions attempted after `stop()` has begun are
*not* rejected for shutdown: `add_task` checks only queue fullness, so
whenever the queue is not full the submission succeeds — even with the
stop event set — registering and enqueuing a task.  Only a full queue
makes it raise. -/
theorem add_task_no_shutdown_check (s : TaskQueueManager) (data : Payload)
    (hstop : s.stopEvent = true) (hfull : queueFull s = false) :
    (add_task s data).2 = Except.ok s.nextId ∧
    (add_task s data).1.tasks = s.tasks ++ [(s.nextId, newTask s.nextId data)] ∧
    (add_task s data).1.queue = s.queue ++ [s.nextId] := by
  rcases add_task_spec s data with ⟨hf, _⟩ | ⟨_, he⟩
  · rw [hf] at hfull
    cases hfull
  · rw [he]
    exact ⟨rfl, rfl, rfl⟩

/-- Witness for C2 (amended) on the concrete stopped manager. -/
theorem add_task_no_shutdown_check_witness :
    stoppedState.stopEvent = true ∧ queueFull stoppedState = false ∧
    ((add_task stoppedState 42).2 = Except.ok stoppedState.nextId ∧
      (add_task stoppedState 42).1.tasks
        = stoppedState.tasks ++ [(stoppedState.nextId, newTask stoppedState.nextId 42)] ∧
      (add_task stoppedState 42).1.queue
        = stoppedState.queue ++ [stoppedState.nextId]) :=
  ⟨by decide, by decide,
    add_task_no_shutdown_check stoppedState 42 (by decide) (by decide)⟩

/-! ## C8 — stop() and the started flag -/

/-- **C8 counterexample**.  `stop()` never touches `self._started`
(lines 236-253 set the stop event, join, cancel and gather — nothing
else), so after `stop()` completes on a started manager the stats
snapshot still reports `is_started = True`; the claim that the started
flag becomes false is wrong. -/
theorem stop_does_not_clear_started :
    steps defaultWork (initManager (some 1) (some 5) none none)
      [Action.start, Action.stopBegin, Action.stopFinish] = some stoppedState ∧
    stoppedState.stopPhase = StopPhase.returned ∧
    stoppedState.started = true ∧
    (get_queue_stats stoppedState).is_started = true := by
  decide

/-- **C8 amended**.  Once the manager has started, no operation — in
particular no part of `stop()` — ever clears the started flag: after any
step from a started state, `get_queue_stats` still reports
`is_started = True`. -/
theorem started_flag_monotone (work : String → Payload → Except String ProcessOutput)
    (s s' : TaskQueueManager) (a : Action)
    (h : step work s a = some s') (hs : s.started = true) :
    s'.started = true ∧ (get_queue_stats s').is_started = true := by
  have hm : s'.started = true := by
    cases a with
    | start =>
      rw [step_start_inv h]
      simp [hs]
    | addTask d =>
      rw [step_addTask_inv h]
      rcases add_task_spec s d with ⟨_, he⟩ | ⟨_, he⟩ <;> rw [he] <;>
        simpa [addTaskOkState] using hs
    | workerCheck w =>
      rcases step_workerCheck_inv h with ⟨_, rfl⟩
      exact hs
    | workerTimeout w =>
      rcases step_workerTimeout_inv h with ⟨_, rfl⟩
      exact hs
    | workerGet w =>
      rcases step_workerGet_inv h with ⟨_, _, _, _, _, _, rfl⟩
      exact hs
    | workerFinish w =>
      rcases step_workerFinish_inv h with ⟨_, _, _, _, rfl⟩
      exact hs
    | stopBegin =>
      rcases step_stopBegin_inv h with ⟨_, rfl⟩
      exact hs
    | stopFinish =>
      rcases step_stopFinish_inv h with ⟨_, _, rfl⟩
      exact hs
  exact ⟨hm, hm⟩

/-- Witness for C8 (amended): the `stopBegin` step on a concrete started
manager. -/
theorem started_flag_monotone_witness :
    step defaultWork startedState Action.stopBegin
      = some ((steps defaultWork (initManager (some 1) (some 5) none none)
          [Action.start, Action.stopBegin]).getD dflt) ∧
    startedState.started = true ∧
    (((steps defaultWork (initManager (some 1) (some 5) none none)
        [Action.start, Action.stopBegin]).getD dflt).started = true ∧
      (get_queue_stats ((steps defaultWork (initManager (some 1) (some 5) none none)
        [Action.start, Action.stopBegin]).getD dflt)).is_started = true) :=
  ⟨by decide, by decide,
    started_flag_monotone defaultWork startedState _ Action.stopBegin
      (by decide) (by decide)⟩

/-! ## C6 — notification sink isolation -/

/-- **C6 counterexample**.  In `process_async` the publish to the
notification sink is awaited *inside* the surrounding `try` block, after
`add_task` has succeeded; when the publish raises, the handler re-raises
to the caller, so the submission call fails and the caller never receives
the task id — even though the task was already registered and enqueued.
The claim that a publish failure never causes the submission to fail is
wrong. -/
theorem publish_failure_fails_submission :
    (process_async_tool (initManager (some 1) (some 5) none none) 42
        (some "http://cb") Except.ok (Except.error "publish failed")).2
      = Except.error "提交任务时发生错误: publish failed" ∧
    (process_async_tool (initManager (some 1) (some 5) none none) 42
        (some "http://cb") Except.ok (Except.error "publish failed")).1.queue
      = [0] := by
  decide

/-- **C6 amended**.  A failed notification publish makes the
`process_async` call raise to its caller (the caller does not receive the
task id); the task itself, however, was already registered and enqueued
by `add_task` before the publish, and stays in the manager, to be
processed normally. -/
theorem publish_failure_raises_but_task_enqueued
    (s : TaskQueueManager) (data pd : Payload) (url msg : String)
    (pre : Payload → Except String Payload)
    (hpre : pre data = Except.ok pd) (hfull : queueFull s = false) :
    (process_async_tool s data (some url) pre (Except.error msg)).2
        = Except.error ("提交任务时发生错误: " ++ msg) ∧
    (process_async_tool s data (some url) pre (Except.error msg)).1
        = addTaskOkState s pd := by
  rcases add_task_spec s pd with ⟨hf, _⟩ | ⟨_, he⟩
  · rw [hf] at hfull
    cases hfull
  · simp [process_async_tool, hpre, he]

/-- Witness for C6 (amended) on a fresh concrete manager. -/
theorem publish_failure_raises_but_task_enqueued_witness :
    ((process_async_tool (initManager (some 1) (some 5) none none) 42
        (some "http://cb") Except.ok (Except.error "boom")).2
      = Except.error ("提交任务时发生错误: " ++ "boom") ∧
    (process_async_tool (initManager (some 1) (some 5) none none) 42
        (some "http://cb") Except.ok (Except.error "boom")).1
      = addTaskOkState (initManager (some 1) (some 5) none none) 42) :=
  publish_failure_raises_but_task_enqueued _ 42 42 "http://cb" "boom"
    Except.ok rfl (by decide)

/-! ## C4 — capacity bound with unique ids -/

/-- As long as the queue stays within capacity, every `add_task` of a
submission burst succeeds, draws the consecutive fresh ids, keeps every
prior registry entry, and registers each new task as Pending. -/
theorem submitAll_ok (ds : List Payload) : ∀ (s : TaskQueueManager),
    0 < s.queue_size →
    (s.queue.length : Int) + ds.length ≤ s.queue_size →
    (∀ p ∈ s.tasks, p.1 < s.nextId) →
    (submitAll s ds).2 = (List.range' s.nextId ds.length).map Except.ok ∧
    (submitAll s ds).1.queue_size = s.queue_size ∧
    (submitAll s ds).1.queue.length = s.queue.length + ds.length ∧
    (submitAll s ds).1.nextId = s.nextId + ds.length ∧
    (∀ p ∈ (submitAll s ds).1.tasks, p.1 < (submitAll s ds).1.nextId) ∧
    (∀ id t, getTask s.tasks id = some t →
      getTask (submitAll s ds).1.tasks id = some t) ∧
    (∀ id ∈ List.range' s.nextId ds.length, ∃ t,
      getTask (submitAll s ds).1.tasks id = some t ∧
      t.status = Status.pending ∧ t.result = none ∧ t.error = none) := by
  induction ds with
  | nil =>
    intro s h1 h2 h3
    refine ⟨by simp [submitAll], rfl, by simp [submitAll], by simp [submitAll],
      ?_, fun id t h => h, by simp⟩
    simpa [submitAll] using h3
  | cons d ds ih =>
    intro s h1 h2 h3
    have hlt : (s.queue.length : Int) < s.queue_size := by
      have : (ds.length : Int) + 1 = ((d :: ds).length : Int) := by
        push_cast
        simp
      omega
    have hfull : queueFull s = false := by
      simp only [queueFull, Bool.and_eq_false_iff]
      right
      simp
      omega
    rcases add_task_spec s d with ⟨hf, _⟩ | ⟨_, he⟩
    · rw [hf] at hfull
      cases hfull
    · have h1' : 0 < (addTaskOkState s d).queue_size := h1
      have h2' : ((addTaskOkState s d).queue.length : Int) + ds.length
          ≤ (addTaskOkState s d).queue_size := by
        simp only [addTaskOkState, List.length_append, List.length_cons,
          List.length_nil]
        push_cast
        have : ((d :: ds).length : Int) = (ds.length : Int) + 1 := by
          push_cast
          simp
        omega
      have h3' : ∀ p ∈ (addTaskOkState s d).tasks,
          p.1 < (addTaskOkState s d).nextId := by
        intro p hp
        simp only [addTaskOkState, List.mem_append, List.mem_singleton] at hp
        rcases hp with hp | hp
        · exact Nat.lt_succ_of_lt (h3 p hp)
        · rw [hp]
          exact Nat.lt_succ_self _
      obtain ⟨r1, r2, r3, r4, r5, r6, r7⟩ := ih (addTaskOkState s d) h1' h2' h3'
      have hred : submitAll s (d :: ds)
          = ((submitAll (addTaskOkState s d) ds).1,
            Except.ok s.nextId :: (submitAll (addTaskOkState s d) ds).2) := by
        simp [submitAll, he]
      have hnew : getTask (addTaskOkState s d).tasks s.nextId
          = some (newTask s.nextId d) := by
        have hnone : getTask s.tasks s.nextId = none :=
          getTask_none_iff.mpr (fun p hp => Nat.ne_of_lt (h3 p hp))
        simp only [addTaskOkState]
        rw [getTask_append_none hnone, getTask_cons]
        simp
      refine ⟨?_, ?_, ?_, ?_, ?_, ?_, ?_⟩
      · rw [hred]
        simp only [List.length_cons, List.range'_succ, List.map_cons]
        rw [r1]
        simp [addTaskOkState]
      · rw [hred]
        exact r2
      · rw [hred, r3]
        simp [addTaskOkState]
        omega
      · rw [hred, r4]
        simp [addTaskOkState]
        omega
      · rw [hred]
        exact r5
      · intro id t h
        rw [hred]
        refine r6 id t ?_
        simp only [addTaskOkState]
        exact getTask_append_left h
      · intro i hi
        rw [List.length_cons, List.range'_succ] at hi
        rw [hred]
        rcases List.mem_cons.mp hi with rfl | hi
        · exact ⟨newTask s.nextId d, r6 s.nextId (newTask s.nextId d) hnew,
            rfl, rfl, rfl⟩
        · have : i ∈ List.range' (addTaskOkState s d).nextId ds.length := by
            simpa [addTaskOkState] using hi
          exact r7 i this

/-- **C4** (confirmed).  On a fresh manager of capacity `K > 0`, a burst
of `K` submissions (no dequeues in between) all succeed, return the
pairwise-distinct ids `0..K-1`, and register one Pending record each;
the `(K+1)`-th submission raises the queue-full error, and `add_task`
accepts exactly when the queue holds fewer than `K` items. -/
theorem capacity_bound (K : Nat) (hK : 0 < K) (ds : List Payload)
    (hlen : ds.length = K) (d' : Payload) :
    (submitAll (initManager none (some (K : Int)) none none) ds).2
        = (List.range' 0 K).map Except.ok ∧
    (List.range' 0 K).Nodup ∧
    (∀ id ∈ List.range' 0 K, ∃ t,
      getTask (submitAll (initManager none (some (K : Int)) none none) ds).1.tasks id
        = some t ∧ t.status = Status.pending) ∧
    (∀ r, (add_task (submitAll (initManager none (some (K : Int)) none none) ds).1 d').2
        ≠ Except.ok r) ∧
    (add_task (submitAll (initManager none (some (K : Int)) none none) ds).1 d').2
        = Except.error "任务队列已满，请稍后重试" := by
  have hKz : (K : Int) ≠ 0 := by
    have := hK
    omega
  have hqs : (initManager none (some (K : Int)) none none).queue_size = (K : Int) := by
    simp [initManager, pyOr, hKz]
  obtain ⟨r1, r2, r3, r4, r5, r6, r7⟩ :=
    submitAll_ok ds (initManager none (some (K : Int)) none none)
      (by rw [hqs]; omega)
      (by
        rw [hqs]
        have : (initManager none (some (K : Int)) none none).queue = [] := rfl
        rw [this]
        simp [hlen])
      (by intro p hp; cases hp)
  have hfin : queueFull (submitAll (initManager none (some (K : Int)) none none) ds).1
      = true := by
    simp only [queueFull, r2, hqs]
    rw [Bool.and_eq_true]
    constructor
    · simp
      omega
    · simp [r3, hlen]
  rcases add_task_spec (submitAll (initManager none (some (K : Int)) none none) ds).1 d'
      with ⟨_, he⟩ | ⟨hf, _⟩
  · refine ⟨by simpa [hlen] using r1, List.nodup_range' 0 K 1 Nat.one_pos, ?_, ?_, ?_⟩
    · intro id hid
      obtain ⟨t, ht, hp, _, _⟩ := r7 id (by simpa [initManager, hlen] using hid)
      exact ⟨t, ht, hp⟩
    · intro r hr
      rw [he] at hr
      cases hr
    · rw [he]
  · rw [hfin] at hf
    cases hf

/-- Witness for C4 at capacity `K = 2` with payloads `[10, 20]` and a
third, rejected payload `30`. -/
theorem capacity_bound_witness :
    (submitAll (initManager none (some 2) none none) [10, 20]).2
        = [Except.ok 0, Except.ok 1] ∧
    (∀ r, (add_task (submitAll (initManager none (some 2) none none) [10, 20]).1 30).2
        ≠ Except.ok r) := by
  have h := capacity_bound 2 (by decide) [10, 20] rfl 30
  exact ⟨by decide, h.2.2.2.1⟩

/-! ## Worker-list helpers -/

theorem workers_set_self {l : List WorkerPhase} {w : Nat} {ph : WorkerPhase}
    (h : l[w]? = some ph) (v : WorkerPhase) : (l.set w v)[w]? = some v := by
  rw [List.getElem?_set_self', h]
  rfl

theorem workers_set_ne {l : List WorkerPhase} {w w' : Nat} (v : WorkerPhase)
    (h : w ≠ w') : (l.set w v)[w']? = l[w']? :=
  List.getElem?_set_ne h

theorem append_replicate_cases {l : List WorkerPhase} {n w : Nat}
    {v x : WorkerPhase} (h : (l ++ List.replicate n v)[w]? = some x) :
    l[w]? = some x ∨ x = v := by
  by_cases hw : w < l.length
  · left
    rwa [List.getElem?_append_left hw] at h
  · right
    rw [List.getElem?_append_right (Nat.le_of_not_lt hw)] at h
    exact List.eq_of_mem_replicate (List.getElem?_mem h)

/-! ## The reachable-state invariant -/

/-- The inductive invariant of the manager machine: registry entries carry
their own key and keys are below the fresh counter; the ghost submission
log is duplicate-free, bounded by the counter, and splits exactly into the
dispatch log followed by the current queue; queued tasks are Pending;
a running worker holds a Processing task that already entered the dispatch
log; no two workers run the same task; and terminal statuses come with
their mandatory field. -/
structure ManagerInv (s : TaskQueueManager) : Prop where
  keys : ∀ p ∈ s.tasks, (Prod.snd p).id = Prod.fst p ∧ Prod.fst p < s.nextId
  subLt : ∀ i ∈ s.submissionOrder, i < s.nextId
  subNodup : s.submissionOrder.Nodup
  orderEq : s.processingOrder ++ s.queue = s.submissionOrder
  queuePending : ∀ i ∈ s.queue,
    ∃ t, getTask s.tasks i = some t ∧ t.status = Status.pending
  runningProc : ∀ (w i : Nat), s.workers[w]? = some (WorkerPhase.running i) →
    i ∈ s.processingOrder ∧
    ∃ t, getTask s.tasks i = some t ∧ t.status = Status.processing
  runningUnique : ∀ (w w' i : Nat), w ≠ w' →
    s.workers[w]? = some (WorkerPhase.running i) →
    s.workers[w']? ≠ some (WorkerPhase.running i)
  statusFields : ∀ p ∈ s.tasks,
    ((Prod.snd p).status = Status.completed → (Prod.snd p).result.isSome) ∧
    ((Prod.snd p).status = Status.failed → (Prod.snd p).error.isSome)

theorem inv_init (mw qs ew eq : Option Int) : ManagerInv (initManager mw qs ew eq) := by
  refine ⟨?_, ?_, ?_, ?_, ?_, ?_, ?_, ?_⟩ <;> simp [initManager]

theorem inv_step {work : String → Payload → Except String ProcessOutput}
    {s s' : TaskQueueManager} {a : Action}
    (hs : ManagerInv s) (h : step work s a = some s') : ManagerInv s' := by
  obtain ⟨hkeys, hsubLt, hsubNodup, horder, hqp, hrp, hru, hsf⟩ := hs
  cases a with
  | start =>
    rw [step_start_inv h]
    by_cases hst : s.started
    · rw [if_pos hst]
      exact ⟨hkeys, hsubLt, hsubNodup, horder, hqp, hrp, hru, hsf⟩
    · rw [if_neg hst]
      refine ⟨hkeys, hsubLt, hsubNodup, horder, hqp, ?_, ?_, hsf⟩
      · intro w i hw
        rcases append_replicate_cases hw with hw' | hw'
        · exact hrp w i hw'
        · exact WorkerPhase.noConfusion hw'
      · intro w1 w2 i hne h1 h2
        rcases append_replicate_cases h1 with h1' | h1'
        · rcases append_replicate_cases h2 with h2' | h2'
          · exact hru w1 w2 i hne h1' h2'
          · exact WorkerPhase.noConfusion h2'
        · exact WorkerPhase.noConfusion h1'
  | addTask d =>
    rw [step_addTask_inv h]
    rcases add_task_spec s d with ⟨_, he⟩ | ⟨_, he⟩ <;> rw [he]
    · exact ⟨hkeys, hsubLt, hsubNodup, horder, hqp, hrp, hru, hsf⟩
    · have hfreshKey : ∀ p ∈ s.tasks, Prod.fst p ≠ s.nextId :=
        fun p hp => Nat.ne_of_lt (hkeys p hp).2
      have hnone : getTask s.tasks s.nextId = none :=
        getTask_none_iff.mpr hfreshKey
      refine ⟨?_, ?_, ?_, ?_, ?_, ?_, ?_, ?_⟩
      · intro p hp
        simp only [addTaskOkState, List.mem_append, List.mem_singleton] at hp
        rcases hp with hp | rfl
        · exact ⟨(hkeys p hp).1, Nat.lt_succ_of_lt (hkeys p hp).2⟩
        · exact ⟨rfl, Nat.lt_succ_self _⟩
      · intro i hi
        simp only [addTaskOkState, List.mem_append, List.mem_singleton] at hi
        rcases hi with hi | rfl
        · exact Nat.lt_succ_of_lt (hsubLt i hi)
        · exact Nat.lt_succ_self _
      · simp only [addTaskOkState]
        rw [List.nodup_append]
        refine ⟨hsubNodup, List.nodup_singleton _, ?_⟩
        intro x hx hx'
        rw [List.mem_singleton] at hx'
        subst hx'
        exact absurd (hsubLt _ hx) (lt_irrefl _)
      · simp only [addTaskOkState]
        rw [← List.append_assoc, horder]
      · intro i hi
        simp only [addTaskOkState] at hi ⊢
        rcases List.mem_append.mp hi with hi | hi
        · obtain ⟨t, ht, hpend⟩ := hqp i hi
          exact ⟨t, getTask_append_left ht, hpend⟩
        · rw [List.mem_singleton] at hi
          subst hi
          refine ⟨newTask s.nextId d, ?_, rfl⟩
          rw [getTask_append_none hnone, getTask_cons]
          simp
      · intro w i hw
        simp only [addTaskOkState] at hw ⊢
        obtain ⟨hmem, t, ht, hproc⟩ := hrp w i hw
        exact ⟨hmem, t, getTask_append_left ht, hproc⟩
      · intro w1 w2 i hne h1 h2
        simp only [addTaskOkState] at h1 h2
        exact hru w1 w2 i hne h1 h2
      · intro p hp
        simp only [addTaskOkState, List.mem_append, List.mem_singleton] at hp
        rcases hp with hp | rfl
        · exact hsf p hp
        · exact ⟨fun hc => by simp [newTask] at hc,
            fun hc => by simp [newTask] at hc⟩
  | workerCheck w =>
    obtain ⟨hw, rfl⟩ := step_workerCheck_inv h
    refine ⟨hkeys, hsubLt, hsubNodup, horder, hqp, ?_, ?_, hsf⟩
    · intro w' i hw'
      by_cases he : w' = w
      · subst he
        rw [workers_set_self hw _] at hw'
        injection hw' with hw'
        cases hst : s.stopEvent <;> rw [hst] at hw' <;>
          exact WorkerPhase.noConfusion hw'
      · rw [workers_set_ne _ (fun hc => he hc.symm)] at hw'
        exact hrp w' i hw'
    · intro w1 w2 i hne h1 h2
      by_cases he1 : w1 = w
      · subst he1
        rw [workers_set_self hw _] at h1
        injection h1 with h1
        cases hst : s.stopEvent <;> rw [hst] at h1 <;>
          exact WorkerPhase.noConfusion h1
      · rw [workers_set_ne _ (fun hc => he1 hc.symm)] at h1
        by_cases he2 : w2 = w
        · subst he2
          rw [workers_set_self hw _] at h2
          injection h2 with h2
          cases hst : s.stopEvent <;> rw [hst] at h2 <;>
            exact WorkerPhase.noConfusion h2
        · rw [workers_set_ne _ (fun hc => he2 hc.symm)] at h2
          exact hru w1 w2 i hne h1 h2
  | workerTimeout w =>
    obtain ⟨hw, rfl⟩ := step_workerTimeout_inv h
    refine ⟨hkeys, hsubLt, hsubNodup, horder, hqp, ?_, ?_, hsf⟩
    · intro w' i hw'
      by_cases he : w' = w
      · subst he
        rw [workers_set_self hw _] at hw'
        injection hw' with hw'
        exact WorkerPhase.noConfusion hw'
      · rw [workers_set_ne _ (fun hc => he hc.symm)] at hw'
        exact hrp w' i hw'
    · intro w1 w2 i hne h1 h2
      by_cases he1 : w1 = w
      · subst he1
        rw [workers_set_self hw _] at h1
        injection h1 with h1
        exact WorkerPhase.noConfusion h1
      · rw [workers_set_ne _ (fun hc => he1 hc.symm)] at h1
        by_cases he2 : w2 = w
        · subst he2
          rw [workers_set_self hw _] at h2
          injection h2 with h2
          exact WorkerPhase.noConfusion h2
        · rw [workers_set_ne _ (fun hc => he2 hc.symm)] at h2
          exact hru w1 w2 i hne h1 h2
  | workerGet w =>
    obtain ⟨i, rest, t, hw, hq, ht, rfl⟩ := step_workerGet_inv h
    have hpoQ : (s.processingOrder ++ s.queue).Nodup := by
      rw [horder]
      exact hsubNodup
    have hdisj := List.disjoint_of_nodup_append hpoQ
    have hiQ : i ∈ s.queue := by
      rw [hq]
      exact List.mem_cons_self _ _
    have hiPO : i ∉ s.processingOrder := fun hc => hdisj hc hiQ
    have hQnodup : s.queue.Nodup := hpoQ.of_append_right
    have hiRest : i ∉ rest := by
      rw [hq] at hQnodup
      exact (List.nodup_cons.mp hQnodup).1
    have hkey : (i, t) ∈ s.tasks := getTask_mem ht
    have htid : t.id = i := (hkeys _ hkey).1
    have htlt : i < s.nextId := (hkeys _ hkey).2
    refine ⟨?_, hsubLt, hsubNodup, ?_, ?_, ?_, ?_, ?_⟩
    · intro p hp
      rcases setTask_mem hp with hp | rfl
      · exact hkeys p hp
      · exact ⟨htid, htlt⟩
    · rw [List.append_assoc]
      show s.processingOrder ++ (i :: rest) = s.submissionOrder
      rw [← hq]
      exact horder
    · intro j hj
      have hjQ : j ∈ s.queue := by
        rw [hq]
        exact List.mem_cons_of_mem _ hj
      obtain ⟨t₀, ht₀, hpend⟩ := hqp j hjQ
      have hji : j ≠ i := fun hc => hiRest (hc ▸ hj)
      exact ⟨t₀, by rw [getTask_setTask_ne hji]; exact ht₀, hpend⟩
    · intro w' j hw'
      by_cases he : w' = w
      · subst he
        rw [workers_set_self hw _] at hw'
        injection hw' with hw'
        injection hw' with hw'
        subst hw'
        refine ⟨List.mem_append_right _ (List.mem_singleton_self _), ?_⟩
        exact ⟨t.update_status .processing none none, getTask_setTask_self _ ht, rfl⟩
      · rw [workers_set_ne _ (fun hc => he hc.symm)] at hw'
        obtain ⟨hmem, t₀, ht₀, hproc⟩ := hrp w' j hw'
        have hji : j ≠ i := fun hc => hiPO (hc ▸ hmem)
        exact ⟨List.mem_append_left _ hmem, t₀,
          by rw [getTask_setTask_ne hji]; exact ht₀, hproc⟩
    · intro w1 w2 j hne h1 h2
      by_cases he1 : w1 = w <;> by_cases he2 : w2 = w
      · exact hne (he1.trans he2.symm)
      · subst he1
        rw [workers_set_self hw _] at h1
        injection h1 with h1
        injection h1 with h1
        subst h1
        rw [workers_set_ne _ (fun hc => he2 hc.symm)] at h2
        obtain ⟨hmem, _⟩ := hrp w2 _ h2
        exact hiPO hmem
      · subst he2
        rw [workers_set_self hw _] at h2
        injection h2 with h2
        injection h2 with h2
        subst h2
        rw [workers_set_ne _ (fun hc => he1 hc.symm)] at h1
        obtain ⟨hmem, _⟩ := hrp w1 _ h1
        exact hiPO hmem
      · rw [workers_set_ne _ (fun hc => he1 hc.symm)] at h1
        rw [workers_set_ne _ (fun hc => he2 hc.symm)] at h2
        exact hru w1 w2 j hne h1 h2
    · intro p hp
      rcases setTask_mem hp with hp | rfl
      · exact hsf p hp
      · exact ⟨fun hc => by simp [Task.update_status] at hc,
          fun hc => by simp [Task.update_status] at hc⟩
  | workerFinish w =>
    obtain ⟨i, t, hw, ht, rfl⟩ := step_workerFinish_inv h
    obtain ⟨hiPO, t₀, ht₀, hproc⟩ := hrp w i hw
    have ht₀t : t₀ = t := Option.some.inj (ht₀.symm.trans ht)
    subst ht₀t
    have hpoQ : (s.processingOrder ++ s.queue).Nodup := by
      rw [horder]
      exact hsubNodup
    have hdisj := List.disjoint_of_nodup_append hpoQ
    have hiQ : i ∉ s.queue := fun hc => hdisj hiPO hc
    have hkey : (i, t₀) ∈ s.tasks := getTask_mem ht
    have htid : t₀.id = i := (hkeys _ hkey).1
    have htlt : i < s.nextId := (hkeys _ hkey).2
    have hTid : (match work (workerName w) t₀.data with
        | .ok r => t₀.update_status .completed (some r) none
        | .error e => t₀.update_status .failed none (some e)).id = i := by
      cases work (workerName w) t₀.data <;> exact htid
    have hTfields :
        ((match work (workerName w) t₀.data with
          | .ok r => t₀.update_status .completed (some r) none
          | .error e => t₀.update_status .failed none (some e)).status
            = Status.completed →
          (match work (workerName w) t₀.data with
          | .ok r => t₀.update_status .completed (some r) none
          | .error e => t₀.update_status .failed none (some e)).result.isSome) ∧
        ((match work (workerName w) t₀.data with
          | .ok r => t₀.update_status .completed (some r) none
          | .error e => t₀.update_status .failed none (some e)).status
            = Status.failed →
          (match work (workerName w) t₀.data with
          | .ok r => t₀.update_status .completed (some r) none
          | .error e => t₀.update_status .failed none (some e)).error.isSome) := by
      cases work (workerName w) t₀.data <;>
        simp [Task.update_status]
    refine ⟨?_, hsubLt, hsubNodup, horder, ?_, ?_, ?_, ?_⟩
    · intro p hp
      rcases setTask_mem hp with hp | rfl
      · exact hkeys p hp
      · exact ⟨hTid, htlt⟩
    · intro j hj
      obtain ⟨t₁, ht₁, hpend⟩ := hqp j hj
      have hji : j ≠ i := fun hc => hiQ (hc ▸ hj)
      exact ⟨t₁, by rw [getTask_setTask_ne hji]; exact ht₁, hpend⟩
    · intro w' j hw'
      by_cases he : w' = w
      · subst he
        rw [workers_set_self hw _] at hw'
        injection hw' with hw'
        exact WorkerPhase.noConfusion hw'
      · rw [workers_set_ne _ (fun hc => he hc.symm)] at hw'
        obtain ⟨hmem, t₁, ht₁, hproc₁⟩ := hrp w' j hw'
        have hji : j ≠ i := by
          intro hc
          subst hc
          exact hru w w' j (fun hc2 => he hc2.symm) hw hw'
        exact ⟨hmem, t₁, by rw [getTask_setTask_ne hji]; exact ht₁, hproc₁⟩
    · intro w1 w2 j hne h1 h2
      by_cases he1 : w1 = w
      · subst he1
        rw [workers_set_self hw _] at h1
        injection h1 with h1
        exact WorkerPhase.noConfusion h1
      · rw [workers_set_ne _ (fun hc => he1 hc.symm)] at h1
        by_cases he2 : w2 = w
        · subst he2
          rw [workers_set_self hw _] at h2
          injection h2 with h2
          exact WorkerPhase.noConfusion h2
        · rw [workers_set_ne _ (fun hc => he2 hc.symm)] at h2
          exact hru w1 w2 j hne h1 h2
    · intro p hp
      rcases setTask_mem hp with hp | rfl
      · exact hsf p hp
      · exact hTfields
  | stopBegin =>
    obtain ⟨hsp, rfl⟩ := step_stopBegin_inv h
    exact ⟨hkeys, hsubLt, hsubNodup, horder, hqp, hrp, hru, hsf⟩
  | stopFinish =>
    obtain ⟨hsp, hu, rfl⟩ := step_stopFinish_inv h
    refine ⟨hkeys, hsubLt, hsubNodup, horder, hqp, ?_, ?_, hsf⟩
    · intro w i hw
      rw [List.getElem?_map] at hw
      cases hx : s.workers[w]? <;> rw [hx] at hw <;> simp at hw
    · intro w1 w2 i hne h1 h2
      rw [List.getElem?_map] at h1
      cases hx : s.workers[w1]? <;> rw [hx] at h1 <;> simp at h1

/-- The invariant holds after any interleaving from an invariant state. -/
theorem inv_steps {work : String → Payload → Except String ProcessOutput} :
    ∀ (acts : List Action) (s s' : TaskQueueManager),
      ManagerInv s → steps work s acts = some s' → ManagerInv s'
  | [], s, s', hs, h => by
    simp only [steps] at h
    injection h with h
    exact h ▸ hs
  | a :: as, s, s', hs, h => by
    simp only [steps] at h
    cases hst : step work s a with
    | none => rw [hst] at h; cases h
    | some s₁ =>
      rw [hst] at h
      exact inv_steps as s₁ s' (inv_step hs hst) h

/-- Every reachable state satisfies the invariant. -/
theorem inv_reachable {work : String → Payload → Except String ProcessOutput}
    {s : TaskQueueManager} (h : Reachable work s) : ManagerInv s := by
  obtain ⟨mw, qs, ew, eq, acts, h⟩ := h
  exact inv_steps acts _ s (inv_init mw qs ew eq) h

/-! ## C3 — lifecycle invariant -/

/-- One step moves each existing record along the lifecycle order only:
it is left untouched, or goes Pending → Processing (dequeue), or
Processing → Completed/Failed (finish). -/
theorem step_task_evolution {work : String → Payload → Except String ProcessOutput}
    {s s' : TaskQueueManager} {a : Action}
    (hinv : ManagerInv s) (h : step work s a = some s')
    (i : Nat) (t t' : Task)
    (ht : getTask s.tasks i = some t) (ht' : getTask s'.tasks i = some t') :
    t' = t ∨
    (t.status = Status.pending ∧ t'.status = Status.processing) ∨
    (t.status = Status.processing ∧
      (t'.status = Status.completed ∨ t'.status = Status.failed)) := by
  cases a with
  | start =>
    rw [step_start_inv h] at ht'
    by_cases hst : s.started
    · rw [if_pos hst] at ht'
      exact Or.inl (Option.some.inj (ht'.symm.trans ht))
    · rw [if_neg hst] at ht'
      exact Or.inl (Option.some.inj (ht'.symm.trans ht))
  | addTask d =>
    rw [step_addTask_inv h] at ht'
    rcases add_task_spec s d with ⟨_, he⟩ | ⟨_, he⟩ <;> rw [he] at ht'
    · exact Or.inl (Option.some.inj (ht'.symm.trans ht))
    · have happ : getTask (addTaskOkState s d).tasks i = some t := by
        simp only [addTaskOkState]
        exact getTask_append_left ht
      exact Or.inl (Option.some.inj (ht'.symm.trans happ))
  | workerCheck w =>
    obtain ⟨_, rfl⟩ := step_workerCheck_inv h
    exact Or.inl (Option.some.inj (ht'.symm.trans ht))
  | workerTimeout w =>
    obtain ⟨_, rfl⟩ := step_workerTimeout_inv h
    exact Or.inl (Option.some.inj (ht'.symm.trans ht))
  | workerGet w =>
    obtain ⟨i₀, rest, t₀, hw, hq, ht₀, rfl⟩ := step_workerGet_inv h
    by_cases hii : i = i₀
    · subst hii
      have htt : t = t₀ := Option.some.inj (ht.symm.trans ht₀)
      obtain ⟨tp, htp, hpend⟩ := hinv.queuePending i (by
        rw [hq]
        exact List.mem_cons_self _ _)
      have htp₀ : tp = t := Option.some.inj (htp.symm.trans ht)
      have hset := getTask_setTask_self
        (t₀.update_status .processing none none) ht₀
      have ht'' : t' = t₀.update_status .processing none none :=
        Option.some.inj (ht'.symm.trans hset)
      refine Or.inr (Or.inl ⟨?_, ?_⟩)
      · rw [← htp₀]
        exact hpend
      · rw [ht'']
        rfl
    · rw [getTask_setTask_ne hii] at ht'
      exact Or.inl (Option.some.inj (ht'.symm.trans ht))
  | workerFinish w =>
    obtain ⟨i₀, t₀, hw, ht₀, rfl⟩ := step_workerFinish_inv h
    by_cases hii : i = i₀
    · subst hii
      have htt : t = t₀ := Option.some.inj (ht.symm.trans ht₀)
      obtain ⟨_, tp, htp, hproc⟩ := hinv.runningProc w i hw
      have htp₀ : tp = t := Option.some.inj (htp.symm.trans ht)
      refine Or.inr (Or.inr ⟨by rw [← htp₀]; exact hproc, ?_⟩)
      cases hwk : work (workerName w) t₀.data with
      | ok r =>
        rw [hwk] at ht'
        have hset := getTask_setTask_self
          (t₀.update_status .completed (some r) none) ht₀
        have ht'' : t' = t₀.update_status .completed (some r) none :=
          Option.some.inj (ht'.symm.trans hset)
        left
        rw [ht'']
        rfl
      | error e =>
        rw [hwk] at ht'
        have hset := getTask_setTask_self
          (t₀.update_status .failed none (some e)) ht₀
        have ht'' : t' = t₀.update_status .failed none (some e) :=
          Option.some.inj (ht'.symm.trans hset)
        right
        rw [ht'']
        rfl
    · rw [getTask_setTask_ne hii] at ht'
      exact Or.inl (Option.some.inj (ht'.symm.trans ht))
  | stopBegin =>
    obtain ⟨_, rfl⟩ := step_stopBegin_inv h
    exact Or.inl (Option.some.inj (ht'.symm.trans ht))
  | stopFinish =>
    obtain ⟨_, _, rfl⟩ := step_stopFinish_inv h
    exact Or.inl (Option.some.inj (ht'.symm.trans ht))

/-- A record that appears during a step appears as Pending. -/
theorem step_new_task_pending {work : String → Payload → Except String ProcessOutput}
    {s s' : TaskQueueManager} {a : Action}
    (h : step work s a = some s') (i : Nat) (t' : Task)
    (hnone : getTask s.tasks i = none) (ht' : getTask s'.tasks i = some t') :
    t'.status = Status.pending := by
  cases a with
  | start =>
    rw [step_start_inv h] at ht'
    by_cases hst : s.started <;>
      [rw [if_pos hst] at ht'; rw [if_neg hst] at ht'] <;>
      rw [hnone] at ht' <;> cases ht'
  | addTask d =>
    rw [step_addTask_inv h] at ht'
    rcases add_task_spec s d with ⟨_, he⟩ | ⟨_, he⟩ <;> rw [he] at ht'
    · rw [hnone] at ht'
      cases ht'
    · simp only [addTaskOkState] at ht'
      rw [getTask_append_none hnone, getTask_cons] at ht'
      by_cases hii : s.nextId = i
      · rw [if_pos hii] at ht'
        have : t' = newTask s.nextId d := Option.some.inj ht'.symm
        rw [this]
        rfl
      · rw [if_neg hii] at ht'
        simp [getTask] at ht'
  | workerCheck w =>
    obtain ⟨_, rfl⟩ := step_workerCheck_inv h
    rw [hnone] at ht'
    cases ht'
  | workerTimeout w =>
    obtain ⟨_, rfl⟩ := step_workerTimeout_inv h
    rw [hnone] at ht'
    cases ht'
  | workerGet w =>
    obtain ⟨i₀, rest, t₀, hw, hq, ht₀, rfl⟩ := step_workerGet_inv h
    rw [getTask_setTask_none _ _ hnone] at ht'
    cases ht'
  | workerFinish w =>
    obtain ⟨i₀, t₀, hw, ht₀, rfl⟩ := step_workerFinish_inv h
    rw [getTask_setTask_none _ _ hnone] at ht'
    cases ht'
  | stopBegin =>
    obtain ⟨_, rfl⟩ := step_stopBegin_inv h
    rw [hnone] at ht'
    cases ht'
  | stopFinish =>
    obtain ⟨_, _, rfl⟩ := step_stopFinish_inv h
    rw [hnone] at ht'
    cases ht'

/-- **C3** (confirmed).  In every reachable state: (1) any observed status
snapshot is consistent — Completed implies the result is set, Failed
implies the error is set; (2) any single step moves each record only along
Pending → Processing → {Completed, Failed} (or leaves it untouched);
(3) a record whose status is terminal is never changed again by any step;
(4) records enter the registry as Pending.  Together these give that each
record's status only ever moves along the lifecycle order. -/
theorem task_lifecycle (work : String → Payload → Except String ProcessOutput)
    (s : TaskQueueManager) (h : Reachable work s) :
    (∀ (i : Nat) (v : TaskStatusView), get_task_status s i = some v →
      (v.status = Status.completed → v.result.isSome) ∧
      (v.status = Status.failed → v.error.isSome)) ∧
    (∀ (a : Action) (s' : TaskQueueManager), step work s a = some s' →
      ∀ (i : Nat) (t t' : Task),
        getTask s.tasks i = some t → getTask s'.tasks i = some t' →
        (t' = t ∨
          (t.status = Status.pending ∧ t'.status = Status.processing) ∨
          (t.status = Status.processing ∧
            (t'.status = Status.completed ∨ t'.status = Status.failed)))) ∧
    (∀ (a : Action) (s' : TaskQueueManager), step work s a = some s' →
      ∀ (i : Nat) (t t' : Task),
        getTask s.tasks i = some t →
        (t.status = Status.completed ∨ t.status = Status.failed) →
        getTask s'.tasks i = some t' → t' = t) ∧
    (∀ (a : Action) (s' : TaskQueueManager), step work s a = some s' →
      ∀ (i : Nat) (t' : Task),
        getTask s.tasks i = none → getTask s'.tasks i = some t' →
        t'.status = Status.pending) := by
  have hinv := inv_reachable h
  refine ⟨?_, ?_, ?_, ?_⟩
  · intro i v hv
    rw [get_task_status, Option.map_eq_some'] at hv
    obtain ⟨t, ht, rfl⟩ := hv
    have hsf := hinv.statusFields _ (getTask_mem ht)
    exact hsf
  · intro a s' hstep i t t' ht ht'
    exact step_task_evolution hinv hstep i t t' ht ht'
  · intro a s' hstep i t t' ht hterm ht'
    rcases step_task_evolution hinv hstep i t t' ht ht' with he | ⟨h1, _⟩ | ⟨h1, _⟩
    · exact he
    · rcases hterm with h2 | h2 <;> rw [h1] at h2 <;> exact Status.noConfusion h2
    · rcases hterm with h2 | h2 <;> rw [h1] at h2 <;> exact Status.noConfusion h2
  · intro a s' hstep i t' hnone ht'
    exact step_new_task_pending hstep i t' hnone ht'

/-- A concrete reachable state with one completed task (used as witness
input). -/
def lifecycleState : TaskQueueManager :=
  (steps defaultWork (initManager (some 1) (some 5) none none)
    [Action.start, Action.addTask 7, Action.workerCheck 0, Action.workerGet 0,
      Action.workerFinish 0]).getD dflt

/-- Witness for C3 at a concrete reachable state holding a completed
record: the snapshot of task 0 is Completed and its result is set. -/
theorem task_lifecycle_witness :
    Reachable defaultWork lifecycleState ∧
    get_task_status lifecycleState 0
      = some ⟨0, Status.completed, some ⟨7, "worker-1"⟩, none⟩ ∧
    (some (⟨7, "worker-1"⟩ : ProcessOutput)).isSome = true :=
  ⟨⟨some 1, some 5, none, none,
      [Action.start, Action.addTask 7, Action.workerCheck 0, Action.workerGet 0,
        Action.workerFinish 0], by decide⟩,
    by decide,
    ((task_lifecycle defaultWork lifecycleState
        ⟨some 1, some 5, none, none,
          [Action.start, Action.addTask 7, Action.workerCheck 0,
            Action.workerGet 0, Action.workerFinish 0], by decide⟩).1 0
      ⟨0, Status.completed, some ⟨7, "worker-1"⟩, none⟩ (by decide)).1 rfl⟩

/-! ## C7 — FIFO dispatch -/

/-- **C7** (confirmed).  In every reachable state of a manager (the claim
takes worker count 1; the property holds for any worker count because all
workers pop the single FIFO queue from the front): if task `a` was
enqueued strictly before task `b` and `b` has begun processing, then `a`
began processing strictly before `b` — dispatch order equals submission
order. -/
theorem fifo_dispatch (work : String → Payload → Except String ProcessOutput)
    (s : TaskQueueManager) (h : Reachable work s)
    (hW : s.max_workers = 1) (a b : Nat)
    (ha : a ∈ s.submissionOrder) (hb : b ∈ s.submissionOrder)
    (hab : s.submissionOrder.indexOf a < s.submissionOrder.indexOf b)
    (hbp : b ∈ s.processingOrder) :
    a ∈ s.processingOrder ∧
    s.processingOrder.indexOf a < s.processingOrder.indexOf b := by
  have hinv := inv_reachable h
  have horder := hinv.orderEq
  by_cases hap : a ∈ s.processingOrder
  · refine ⟨hap, ?_⟩
    rw [← horder, List.indexOf_append_of_mem hap,
      List.indexOf_append_of_mem hbp] at hab
    exact hab
  · exfalso
    rw [← horder, List.indexOf_append_of_not_mem hap,
      List.indexOf_append_of_mem hbp] at hab
    have hlt : s.processingOrder.indexOf b < s.processingOrder.length :=
      List.indexOf_lt_length.mpr hbp
    omega

/-- A concrete reachable state in which two tasks were submitted in order
and both were dispatched (used as witness input). -/
def fifoState : TaskQueueManager :=
  (steps defaultWork (initManager (some 1) (some 5) none none)
    [Action.start, Action.addTask 7, Action.addTask 8, Action.workerCheck 0,
      Action.workerGet 0, Action.workerFinish 0, Action.workerCheck 0,
      Action.workerGet 0]).getD dflt

/-- Witness for C7: with one worker, task 0 (submitted first) began
processing strictly before task 1. -/
theorem fifo_dispatch_witness :
    Reachable defaultWork fifoState ∧ fifoState.max_workers = 1 ∧
    (0 ∈ fifoState.processingOrder ∧
      fifoState.processingOrder.indexOf 0 < fifoState.processingOrder.indexOf 1) :=
  ⟨⟨some 1, some 5, none, none,
      [Action.start, Action.addTask 7, Action.addTask 8, Action.workerCheck 0,
        Action.workerGet 0, Action.workerFinish 0, Action.workerCheck 0,
        Action.workerGet 0], by decide⟩,
    by decide,
    fifo_dispatch defaultWork fifoState
      ⟨some 1, some 5, none, none,
        [Action.start, Action.addTask 7, Action.addTask 8, Action.workerCheck 0,
          Action.workerGet 0, Action.workerFinish 0, Action.workerCheck 0,
          Action.workerGet 0], by decide⟩
      (by decide) 0 1 (by decide) (by decide) (by decide) (by decide)⟩

/-! ## C5 — fault containment -/

/-- A work function that raises on payload 7 — with an *empty* exception
message, as `str(e)` is for `Exception()` — and succeeds otherwise. -/
def faultingWork (name : String) (d : Payload) : Except String ProcessOutput :=
  if d = 7 then Except.error "" else Except.ok ⟨d, name⟩

/-- The state after the worker has processed the faulting task 0 (payload
7) while task 1 (payload 8) is still queued. -/
def faultedState : TaskQueueManager :=
  (steps faultingWork (initManager (some 1) (some 5) none none)
    [Action.start, Action.addTask 7, Action.addTask 8, Action.workerCheck 0,
      Action.workerGet 0, Action.workerFinish 0]).getD dflt

/-- The state just before the faulting task finishes (worker running
task 0). -/
def faultingMidState : TaskQueueManager :=
  (steps faultingWork (initManager (some 1) (some 5) none none)
    [Action.start, Action.addTask 7, Action.addTask 8, Action.workerCheck 0,
      Action.workerGet 0]).getD dflt

/-- The state after the worker has additionally processed the sibling
task 1. -/
def faultedEndState : TaskQueueManager :=
  (steps faultingWork (initManager (some 1) (some 5) none none)
    [Action.start, Action.addTask 7, Action.addTask 8, Action.workerCheck 0,
      Action.workerGet 0, Action.workerFinish 0, Action.workerCheck 0,
      Action.workerGet 0, Action.workerFinish 0]).getD dflt

/-- **C5 counterexample**.  `_process_task` records a fault as
`update_status("failed", error=str(e))`; for an exception with an empty
message (`str(Exception()) == ""`), the Failed record's error description
is the *empty* string, refuting the claim's "non-empty error
description". -/
theorem failed_error_may_be_empty :
    steps faultingWork (initManager (some 1) (some 5) none none)
      [Action.start, Action.addTask 7, Action.addTask 8, Action.workerCheck 0,
        Action.workerGet 0, Action.workerFinish 0] = some faultedState ∧
    getTask faultedState.tasks 0
      = some { id := 0, data := 7, status := Status.failed, result := none,
               error := some "" } ∧
    ("" : String).length = 0 := by
  decide

/-- **C5 amended**.  When the work function raises on a task, the record
becomes Failed with the exception's string as error description (set, but
possibly empty); the worker is not removed from the pool — it returns to
its loop top and the pool keeps its size; every other record and the
queue are untouched, so other submitted tasks proceed normally. -/
theorem work_fault_contained (work : String → Payload → Except String ProcessOutput)
    (s s' : TaskQueueManager) (w i : Nat) (t : Task) (msg : String)
    (hw : s.workers[w]? = some (WorkerPhase.running i))
    (ht : getTask s.tasks i = some t)
    (hwork : work (workerName w) t.data = Except.error msg)
    (h : step work s (Action.workerFinish w) = some s') :
    getTask s'.tasks i
        = some (t.update_status Status.failed none (some msg)) ∧
    s'.workers[w]? = some WorkerPhase.loopTop ∧
    s'.workers.length = s.workers.length ∧
    (∀ (j : Nat) (t₀ : Task), j ≠ i → getTask s.tasks j = some t₀ →
      getTask s'.tasks j = some t₀) ∧
    s'.queue = s.queue := by
  obtain ⟨i₀, t₀, hw₀, ht₀, rfl⟩ := step_workerFinish_inv h
  have hii : i₀ = i := by
    have := Option.some.inj (hw₀.symm.trans hw)
    injection this
  subst hii
  have htt : t₀ = t := Option.some.inj (ht₀.symm.trans ht)
  subst htt
  refine ⟨?_, ?_, by simp, ?_, rfl⟩
  · rw [hwork]
    exact getTask_setTask_self _ ht₀
  · exact workers_set_self hw₀ _
  · intro j tj hji hj
    rw [getTask_setTask_ne hji]
    exact hj

/-- Witness for C5 (amended): the faulting finish step on the concrete
trace, plus the sibling task completing normally afterwards. -/
theorem work_fault_contained_witness :
    getTask faultedState.tasks 0
      = some (Task.update_status
          { id := 0, data := 7, status := Status.processing, result := none,
            error := none } Status.failed none (some "")) ∧
    faultedState.workers[0]? = some WorkerPhase.loopTop ∧
    getTask faultedState.tasks 1
      = some { id := 1, data := 8, status := Status.pending, result := none,
               error := none } ∧
    getTask faultedEndState.tasks 1
      = some { id := 1, data := 8, status := Status.completed,
               result := some ⟨8, "worker-1"⟩, error := none } := by
  have happ := work_fault_contained faultingWork faultingMidState faultedState
    0 0 { id := 0, data := 7, status := Status.processing, result := none,
          error := none } ""
    (by decide) (by decide) (by decide) (by decide)
  exact ⟨happ.1, happ.2.1,
    happ.2.2.2.1 1
      { id := 1, data := 8, status := Status.pending, result := none,
        error := none } (by decide) (by decide),
    by decide⟩

/-! ## C1 — graceful drain on stop() -/

/-- The interleaving that exhibits the shutdown deadlock: one worker,
two tasks; the worker dequeues the first task, `stop()` is called while
it is processing, the worker finishes the first task and then exits its
loop because the stop event is set — with the second task still queued. -/
def deadlockTrace : List Action :=
  [Action.start, Action.addTask 1, Action.addTask 2, Action.workerCheck 0,
    Action.workerGet 0, Action.stopBegin, Action.workerFinish 0,
    Action.workerCheck 0]

/-- The stuck state reached by `deadlockTrace`: the only worker has
stopped, task 1 is still Pending in the queue, the queue's unfinished
count is 1, and `stop()` is parked inside `queue.join()`. -/
def deadlockState : TaskQueueManager :=
  (steps defaultWork (initManager (some 1) (some 5) none none)
    deadlockTrace).getD dflt

/-- What stays true forever once the deadlock is reached. -/
def DeadlockInv (s : TaskQueueManager) : Prop :=
  s.started = true ∧
  (∀ ph ∈ s.workers, ph = WorkerPhase.stopped) ∧
  1 ≤ s.unfinished ∧
  s.stopPhase = StopPhase.joining ∧
  1 < s.nextId ∧
  (∃ t, getTask s.tasks 1 = some t ∧ t.status = Status.pending)

theorem deadlockInv_step {work : String → Payload → Except String ProcessOutput}
    {s s' : TaskQueueManager} {a : Action}
    (hs : DeadlockInv s) (h : step work s a = some s') : DeadlockInv s' := by
  obtain ⟨hstart, hstopped, hunf, hjoin, hnid, t, ht, hpend⟩ := hs
  cases a with
  | start =>
    rw [step_start_inv h, if_pos hstart]
    exact ⟨hstart, hstopped, hunf, hjoin, hnid, t, ht, hpend⟩
  | addTask d =>
    rw [step_addTask_inv h]
    rcases add_task_spec s d with ⟨_, he⟩ | ⟨_, he⟩ <;> rw [he]
    · exact ⟨hstart, hstopped, hunf, hjoin, hnid, t, ht, hpend⟩
    · refine ⟨hstart, hstopped, Nat.le_succ_of_le hunf, hjoin,
        Nat.lt_succ_of_lt hnid, t, ?_, hpend⟩
      simp only [addTaskOkState]
      exact getTask_append_left ht
  | workerCheck w =>
    obtain ⟨hw, rfl⟩ := step_workerCheck_inv h
    have := hstopped _ (List.getElem?_mem hw)
    exact WorkerPhase.noConfusion this
  | workerTimeout w =>
    obtain ⟨hw, rfl⟩ := step_workerTimeout_inv h
    have := hstopped _ (List.getElem?_mem hw)
    exact WorkerPhase.noConfusion this
  | workerGet w =>
    obtain ⟨i, rest, t₀, hw, _, _, rfl⟩ := step_workerGet_inv h
    have := hstopped _ (List.getElem?_mem hw)
    exact WorkerPhase.noConfusion this
  | workerFinish w =>
    obtain ⟨i, t₀, hw, _, rfl⟩ := step_workerFinish_inv h
    have := hstopped _ (List.getElem?_mem hw)
    exact WorkerPhase.noConfusion this
  | stopBegin =>
    obtain ⟨hsp, rfl⟩ := step_stopBegin_inv h
    rw [hjoin] at hsp
    exact StopPhase.noConfusion hsp
  | stopFinish =>
    obtain ⟨_, hu, rfl⟩ := step_stopFinish_inv h
    rw [hu] at hunf
    exact absurd hunf (by simp)

theorem deadlockInv_steps {work : String → Payload → Except String ProcessOutput} :
    ∀ (acts : List Action) (s s' : TaskQueueManager),
      DeadlockInv s → steps work s acts = some s' → DeadlockInv s'
  | [], s, s', hs, h => by
    simp only [steps] at h
    injection h with h
    exact h ▸ hs
  | a :: as, s, s', hs, h => by
    simp only [steps] at h
    cases hst : step work s a with
    | none => rw [hst] at h; cases h
    | some s₁ =>
      rw [hst] at h
      exact deadlockInv_steps as s₁ s' (deadlockInv_step hs hst) h

/-- **C1** (code bug: drain deadlock).  `stop()` sets the stop event
*before* awaiting `queue.join()`, and every worker leaves its loop as
soon as the event is set (at the latest after finishing its current
task).  On the exhibited schedule — one worker, two submitted tasks,
`stop()` called while the first is processing — the worker exits with
task 1 still queued.  From that reachable state, *no* continuation ever
processes task 1 or returns from `stop()`: task 1 stays Pending forever
and `join()` (hence `stop()`) never completes.  This contradicts the
claimed drain guarantee ("queued-but-not-started work still completes
before stop() returns"); the code's own comment at line 243 ("wait for
all tasks to complete") and the spec agree on the intent. -/
theorem stop_drain_deadlock :
    steps defaultWork (initManager (some 1) (some 5) none none) deadlockTrace
        = some deadlockState ∧
    deadlockState.stopPhase = StopPhase.joining ∧
    getTask deadlockState.tasks 1
      = some { id := 1, data := 2, status := Status.pending, result := none,
               error := none } ∧
    (∀ (work : String → Payload → Except String ProcessOutput)
        (acts : List Action) (s' : TaskQueueManager),
      steps work deadlockState acts = some s' →
      s'.stopPhase ≠ StopPhase.returned ∧
      ∃ t, getTask s'.tasks 1 = some t ∧ t.status = Status.pending) := by
  refine ⟨by decide, by decide, by decide, ?_⟩
  intro work acts s' h
  have hstuck : DeadlockInv deadlockState := by
    refine ⟨by decide, by decide, by decide, by decide, by decide,
      { id := 1, data := 2, status := Status.pending, result := none,
        error := none }, by decide, rfl⟩
  obtain ⟨_, _, _, hjoin, _, t, ht, hpend⟩ :=
    deadlockInv_steps acts deadlockState s' hstuck h
  refine ⟨?_, t, ht, hpend⟩
  intro hc
  rw [hjoin] at hc
  exact StopPhase.noConfusion hc

/-- Witness for C1's theorem: the empty continuation of the stuck
state. -/
theorem stop_drain_deadlock_witness :
    deadlockState.stopPhase ≠ StopPhase.returned ∧
    ∃ t, getTask deadlockState.tasks 1 = some t ∧
      t.status = Status.pending :=
  stop_drain_deadlock.2.2.2 defaultWork [] deadlockState rfl

end ADF
